import Mathlib

set_option maxRecDepth 100000

/-
  Verification of the blog-generator content pipeline.

  The development embeds, over lists of characters:
  - a model of JavaScript JSON.parse restricted to integer numerals
    (sufficient for every input considered here; fractional and exponent
    numerals are rejected by the model, and the model keeps duplicate
    object keys in order while the host keeps the last one - no input in
    this file has duplicate keys),
  - the resilient JSON extraction cascades of the writer and curator agents
    (parseJSONSafely), including the fixed regular expressions they use,
  - the curation filter/sort step, the word-count and reading-time
    computations, the critique-format validation, and a stage/pipeline
    execution model with per-stage telemetry spans.
-/

/-! ### JSON values -/

inductive Json where
  | null : Json
  | bool (b : Bool) : Json
  | num (n : Int) : Json
  | str (s : List Char) : Json
  | arr (elems : List Json) : Json
  | obj (fields : List (List Char × Json)) : Json

/-- Whitespace accepted by JSON.parse between tokens (space, tab, LF, CR).
The JavaScript regex class `\s` is broader, but every input considered in
this development only contains these whitespace characters. -/
def isWsChar (c : Char) : Bool :=
  c = ' ' || c = '\t' || c = '\n' || c = '\r'

def skipWs (l : List Char) : List Char := l.dropWhile isWsChar

def isHexDigitChar (c : Char) : Bool :=
  c.isDigit || ('a' ≤ c && c ≤ 'f') || ('A' ≤ c && c ≤ 'F')

def hexVal (c : Char) : Nat :=
  if c.isDigit then c.toNat - 48
  else if 'a' ≤ c && c ≤ 'f' then c.toNat - 87
  else c.toNat - 55

/-- Scan the body of a JSON string literal (after the opening quote).
Returns the decoded characters and the rest of the input after the closing
quote.  Unescaped control characters (code points below 32) are rejected,
exactly as JSON.parse rejects raw newlines inside string literals. -/
def parseStringBody : List Char → Except Unit (List Char × List Char)
  | [] => .error ()
  | c :: cs =>
    if c = '"' then .ok ([], cs)
    else if c = '\\' then
      match cs with
      | [] => .error ()
      | e :: cs' =>
        if e = '"' then (parseStringBody cs').map (fun p => ('"' :: p.1, p.2))
        else if e = '\\' then (parseStringBody cs').map (fun p => ('\\' :: p.1, p.2))
        else if e = '/' then (parseStringBody cs').map (fun p => ('/' :: p.1, p.2))
        else if e = 'b' then (parseStringBody cs').map (fun p => ('\x08' :: p.1, p.2))
        else if e = 'f' then (parseStringBody cs').map (fun p => ('\x0c' :: p.1, p.2))
        else if e = 'n' then (parseStringBody cs').map (fun p => ('\n' :: p.1, p.2))
        else if e = 'r' then (parseStringBody cs').map (fun p => ('\r' :: p.1, p.2))
        else if e = 't' then (parseStringBody cs').map (fun p => ('\t' :: p.1, p.2))
        else if e = 'u' then
          match cs' with
          | h1 :: h2 :: h3 :: h4 :: cs'' =>
            if isHexDigitChar h1 && isHexDigitChar h2 && isHexDigitChar h3 && isHexDigitChar h4 then
              (parseStringBody cs'').map (fun p =>
                (Char.ofNat (4096 * hexVal h1 + 256 * hexVal h2 + 16 * hexVal h3 + hexVal h4) :: p.1,
                 p.2))
            else .error ()
          | _ => .error ()
        else .error ()
    else if c.toNat < 32 then .error ()
    else (parseStringBody cs).map (fun p => (c :: p.1, p.2))

def digitsToNat (ds : List Char) : Nat :=
  ds.foldl (fun acc d => 10 * acc + (d.toNat - 48)) 0

/-- Parse a JSON integer numeral (optional minus sign, digits, no leading
zeros).  A following `.`, `e` or `E` is rejected: the model is restricted
to integer numerals. -/
def parseNumber (l : List Char) : Except Unit (Json × List Char) :=
  let (neg, l1) := match l with
    | '-' :: rest => (true, rest)
    | _ => (false, l)
  let ds := l1.takeWhile Char.isDigit
  let rest := l1.dropWhile Char.isDigit
  if ds = [] then .error ()
  else if ds.length > 1 && ds.headD '0' = '0' then .error ()
  else
    match rest with
    | '.' :: _ => .error ()
    | 'e' :: _ => .error ()
    | 'E' :: _ => .error ()
    | _ =>
      let n : Int := Int.ofNat (digitsToNat ds)
      .ok (.num (if neg then -n else n), rest)

/-- Parser mode: a value, the members of an object, or the elements of an
array (`first` is true when no member/element has been parsed yet, so a
closing token is allowed immediately). -/
inductive PMode where
  | value : PMode
  | members (first : Bool) (acc : List (List Char × Json)) : PMode
  | elems (first : Bool) (acc : List Json) : PMode

/-- Fueled recursive-descent JSON parser.  Structural recursion on the fuel
keeps every evaluation kernel-reducible.  `parseJson` supplies fuel larger
than the input length, which bounds the nesting of recursive calls. -/
def parseCore : Nat → PMode → List Char → Except Unit (Json × List Char)
  | 0, _, _ => .error ()
  | f + 1, .value, l =>
    match skipWs l with
    | [] => .error ()
    | c :: rest =>
      if c = '"' then
        match parseStringBody rest with
        | .ok (s, r) => .ok (.str s, r)
        | .error _ => .error ()
      else if c = '\x7b' then parseCore f (.members true []) rest
      else if c = '[' then parseCore f (.elems true []) rest
      else if c = 't' then
        if ['r', 'u', 'e'].isPrefixOf rest then .ok (.bool true, rest.drop 3) else .error ()
      else if c = 'f' then
        if ['a', 'l', 's', 'e'].isPrefixOf rest then .ok (.bool false, rest.drop 4) else .error ()
      else if c = 'n' then
        if ['u', 'l', 'l'].isPrefixOf rest then .ok (.null, rest.drop 3) else .error ()
      else parseNumber (c :: rest)
  | f + 1, .members first acc, l =>
    match skipWs l with
    | [] => .error ()
    | c :: rest =>
      if c = '\x7d' then
        if first then .ok (.obj acc, rest) else .error ()
      else if c = '"' then
        match parseStringBody rest with
        | .error _ => .error ()
        | .ok (k, r1) =>
          match skipWs r1 with
          | ':' :: r2 =>
            match parseCore f .value r2 with
            | .error _ => .error ()
            | .ok (v, r3) =>
              match skipWs r3 with
              | ',' :: r4 => parseCore f (.members false (acc ++ [(k, v)])) r4
              | '\x7d' :: r4 => .ok (.obj (acc ++ [(k, v)]), r4)
              | _ => .error ()
          | _ => .error ()
      else .error ()
  | f + 1, .elems first acc, l =>
    match skipWs l with
    | [] => .error ()
    | c :: rest =>
      if c = ']' && first then .ok (.arr acc, rest)
      else
        match parseCore f .value (c :: rest) with
        | .error _ => .error ()
        | .ok (v, r1) =>
          match skipWs r1 with
          | ',' :: r2 => parseCore f (.elems false (acc ++ [v])) r2
          | ']' :: r2 => .ok (.arr (acc ++ [v]), r2)
          | _ => .error ()

/-- Model of JSON.parse: parse one value, then require only trailing
whitespace. -/
def parseJson (l : List Char) : Except Unit Json :=
  match parseCore (l.length + 2) .value l with
  | .ok (v, rest) => if skipWs rest = [] then .ok v else .error ()
  | .error _ => .error ()

/-! ### Models of the fixed regular expressions used by parseJSONSafely -/

def btick : Char := Char.ofNat 96

/-- First position at which `pat` occurs as a substring: returns the text
before the occurrence and the text after it. -/
def findPrefixSplit (pat : List Char) : List Char → Option (List Char × List Char)
  | [] => if pat = [] then some ([], []) else none
  | c :: cs =>
    if pat.isPrefixOf (c :: cs) then some ([], (c :: cs).drop pat.length)
    else
      match findPrefixSplit pat cs with
      | some (pre, post) => some (c :: pre, post)
      | none => none

/-- JavaScript `String.prototype.replace` with a plain-string pattern:
replace the first occurrence only. -/
def replaceFirst (pat repl l : List Char) : List Char :=
  match findPrefixSplit pat l with
  | some (pre, post) => pre ++ repl ++ post
  | none => l

/-- Fueled global replacement of a fixed substring (the `fuel` exceeds the
input length, so it never runs out; it only makes the recursion
structural and hence kernel-reducible). -/
def replaceSubFuel (pat repl : List Char) : Nat → List Char → List Char
  | 0, l => l
  | _ + 1, [] => []
  | fuel + 1, c :: cs =>
    if pat.isPrefixOf (c :: cs) then
      repl ++ replaceSubFuel pat repl fuel ((c :: cs).drop pat.length)
    else c :: replaceSubFuel pat repl fuel cs

/-- JavaScript `replace(/pat/g, repl)` for a fixed-string pattern. -/
def replaceSub (pat repl l : List Char) : List Char :=
  replaceSubFuel pat repl (l.length + 1) l

/-- `replace(/\n/g, r)`: replace every raw newline character. -/
def replaceNl (r : List Char) (l : List Char) : List Char :=
  l.flatMap (fun c => if c = '\n' then r else [c])

/-- `replace(/\s+/g, " ")`: collapse every whitespace run to one space.
The flag records whether the previous character was part of a run. -/
def collapseWsGo : List Char → Bool → List Char
  | [], _ => []
  | c :: cs, prevWs =>
    if isWsChar c then
      if prevWs then collapseWsGo cs true else ' ' :: collapseWsGo cs true
    else c :: collapseWsGo cs false

def collapseWs (l : List Char) : List Char := collapseWsGo l false

/-- If `l` starts with a nonempty whitespace run followed by `ch`, return
the text after that `ch`. -/
def wsRunThen (ch : Char) (l : List Char) : Option (List Char × List Char) :=
  let ws := l.takeWhile isWsChar
  if ws = [] then none
  else
    match l.drop ws.length with
    | c :: rest => if c = ch then some (ws, rest) else none
    | [] => none

/-- `replace(/"\s+x/g, "\"x")` for a closing character `x` (used for the
`"\s+}` and `"\s+,` cleanup steps). -/
def fixQuoteWsFuel (x : Char) : Nat → List Char → List Char
  | 0, l => l
  | _ + 1, [] => []
  | fuel + 1, c :: cs =>
    if c = '"' then
      match wsRunThen x cs with
      | some (_, after) => '"' :: x :: fixQuoteWsFuel x fuel after
      | none => '"' :: fixQuoteWsFuel x fuel cs
    else c :: fixQuoteWsFuel x fuel cs

def fixQuoteWs (x : Char) (l : List Char) : List Char :=
  fixQuoteWsFuel x (l.length + 1) l

/-- `replace(/,(\s+})/g, "$1")`: drop a comma followed by whitespace and a
closing brace, keeping the whitespace and the brace. -/
def fixTrailingCommaFuel : Nat → List Char → List Char
  | 0, l => l
  | _ + 1, [] => []
  | fuel + 1, c :: cs =>
    if c = ',' then
      match wsRunThen '\x7d' cs with
      | some (ws, after) => ws ++ '\x7d' :: fixTrailingCommaFuel fuel after
      | none => ',' :: fixTrailingCommaFuel fuel cs
    else c :: fixTrailingCommaFuel fuel cs

def fixTrailingComma (l : List Char) : List Char :=
  fixTrailingCommaFuel (l.length + 1) l

/-- JavaScript `String.prototype.trim`. -/
def jsTrim (l : List Char) : List Char :=
  ((l.dropWhile isWsChar).reverse.dropWhile isWsChar).reverse

/-- The writer agent's cleanup chain (writerAgent.ts): the steps applied in
order are `\\n -> \\n` (identity, "preserve literal \n"), `\n -> \\n`,
`\s+ -> " "`, `"\s+} -> "}`, `"\s+, -> ",`, `,(\s+}) -> $1`, `\\" -> "`,
`\\\\ -> \`, then trim. -/
def writerClean (l : List Char) : List Char :=
  jsTrim
    (replaceSub ['\\', '\\'] ['\\']
      (replaceSub ['\\', '"'] ['"']
        (fixTrailingComma
          (fixQuoteWs ','
            (fixQuoteWs '\x7d'
              (collapseWs
                (replaceNl ['\\', 'n']
                  (replaceSub ['\\', 'n'] ['\\', 'n'] l))))))))

/-- Match of `/```(?:json)?\n([\s\S]*?)\n```/` at the start of the input:
the backticks, an optional `json` tag, a newline, then the shortest body
followed by a newline and three backticks. -/
def fenceAt (l : List Char) : Option (List Char) :=
  if [btick, btick, btick].isPrefixOf l then
    let r := l.drop 3
    if ['j', 's', 'o', 'n', '\n'].isPrefixOf r then
      (findPrefixSplit ['\n', btick, btick, btick] (r.drop 5)).map (fun p => p.1)
    else if ['\n'].isPrefixOf r then
      (findPrefixSplit ['\n', btick, btick, btick] (r.drop 1)).map (fun p => p.1)
    else none
  else none

/-- First match of the fenced-code-block regex anywhere in the input
(the capture group: the fence body). -/
def findFence : List Char → Option (List Char)
  | [] => none
  | c :: cs =>
    match fenceAt (c :: cs) with
    | some body => some body
    | none => findFence cs

/-- Shortest prefix of the input up to and including the first occurrence
of `ch`. -/
def takeUpToIncl (ch : Char) : List Char → Option (List Char)
  | [] => none
  | c :: cs => if c = ch then some [c] else (takeUpToIncl ch cs).map (c :: ·)

/-- Longest prefix of the input up to and including the last occurrence
of `ch`. -/
def takeUpToLastIncl (ch : Char) : List Char → Option (List Char)
  | [] => none
  | c :: cs =>
    match takeUpToLastIncl ch cs with
    | some body => some (c :: body)
    | none => if c = ch then some [c] else none

/-- First match of the non-greedy pattern `/(\{[\s\S]*?\}|\[[\s\S]*?\])/`
(writerAgent.ts, critiquerAgent): at the first position holding `{` with a
later `}` (or `[` with a later `]`), the span runs to the NEAREST such
closer, so it is not balance-aware. -/
def scanSpanNonGreedy : List Char → Option (List Char)
  | [] => none
  | c :: cs =>
    if c = '\x7b' then
      match takeUpToIncl '\x7d' cs with
      | some body => some ('\x7b' :: body)
      | none => scanSpanNonGreedy cs
    else if c = '[' then
      match takeUpToIncl ']' cs with
      | some body => some ('[' :: body)
      | none => scanSpanNonGreedy cs
    else scanSpanNonGreedy cs

/-- First match of the greedy pattern `/\{[\s\S]*\}|\[[\s\S]*\]/`
(curatorAgent.ts): the span runs to the LAST closer of the matching kind. -/
def scanSpanGreedy : List Char → Option (List Char)
  | [] => none
  | c :: cs =>
    if c = '\x7b' then
      match takeUpToLastIncl '\x7d' cs with
      | some body => some ('\x7b' :: body)
      | none => scanSpanGreedy cs
    else if c = '[' then
      match takeUpToLastIncl ']' cs with
      | some body => some ('[' :: body)
      | none => scanSpanGreedy cs
    else scanSpanGreedy cs

def contentPat : List Char :=
  ['"', 'c', 'o', 'n', 't', 'e', 'n', 't', '"', ':']

/-- The capture `([^"]*?)"`: the characters before the first quote, plus
the rest after that quote. -/
def captureUpToQuote : List Char → Option (List Char × List Char)
  | [] => none
  | c :: cs =>
    if c = '"' then some ([], cs)
    else (captureUpToQuote cs).map (fun p => (c :: p.1, p.2))

/-- Match of `/"content":\s*"([^"]*?)"/` at the start of the input: returns
the whole matched text and the capture group. -/
def contentAt (l : List Char) : Option (List Char × List Char) :=
  if contentPat.isPrefixOf l then
    let r := l.drop 10
    let ws := r.takeWhile isWsChar
    match r.drop ws.length with
    | '"' :: r2 =>
      match captureUpToQuote r2 with
      | some (cap, _) => some (contentPat ++ ws ++ '"' :: (cap ++ ['"']), cap)
      | none => none
    | _ => none
  else none

/-- First match of the content-field regex anywhere in the input. -/
def findContent : List Char → Option (List Char × List Char)
  | [] => none
  | c :: cs =>
    match contentAt (c :: cs) with
    | some m => some m
    | none => findContent cs

def contentPlaceholder : List Char :=
  ['"', 'c', 'o', 'n', 't', 'e', 'n', 't', '"', ':', ' ', '"',
   'C', 'O', 'N', 'T', 'E', 'N', 'T', '_',
   'P', 'L', 'A', 'C', 'E', 'H', 'O', 'L', 'D', 'E', 'R', '"']

def contentKey : List Char := ['c', 'o', 'n', 't', 'e', 'n', 't']

/-- `parsedJson.content = content`: overwrite (or add) the `content` field
of an object.  JavaScript property assignment on a non-object wrapper is
not JSON-visible, and never arises for the inputs considered here. -/
def Json.setField (j : Json) (key : List Char) (v : Json) : Json :=
  match j with
  | .obj fields =>
    if fields.any (fun p => p.1 = key) then
      .obj (fields.map (fun p => if p.1 = key then (p.1, v) else p))
    else .obj (fields ++ [(key, v)])
  | other => other

/-! ### The extraction cascades (parseJSONSafely) -/

def writerFailMsg : List Char :=
  ("Failed to parse JSON response. The response may not be in the expected format.").data

def curatorFailParseMsg : List Char :=
  ("Failed to parse JSON response: ").data

def curatorNoJsonMsg : List Char :=
  ("No valid JSON found in response: ").data

/-- The writer agent's parseJSONSafely (writerAgent.ts lines 49-148):
1. direct JSON.parse;
2. fenced code block, verbatim then cleaned (skipped when the capture is
   empty, because an empty string is falsy in JavaScript);
3. first non-greedy `{...}`/`[...]` span; if it contains a
   `"content": "..."` match, the capture is swapped for a placeholder, the
   remainder is cleaned and parsed, and the capture is spliced back over
   the `content` field; otherwise the span is cleaned and parsed;
4. otherwise a fixed descriptive error (the raw text goes only to
   console.error).
The cascade is split into `fenceStage`, `contentBranch`, `spanStage` and
`parseJSONSafelyWriter` below, mirroring the nesting of the source. -/
def fenceStage (s : List Char) : Option Json :=
  match findFence s with
  | none => none
  | some [] => none
  | some body =>
    match parseJson body with
    | .ok v => some v
    | .error _ =>
      match parseJson (writerClean body) with
      | .ok v => some v
      | .error _ => none

def contentBranch (span matched captured : List Char) : Except (List Char) Json :=
  match parseJson (writerClean (replaceFirst matched contentPlaceholder span)) with
  | .ok v => .ok (v.setField contentKey (.str captured))
  | .error _ => .error writerFailMsg

def spanStage (s : List Char) : Except (List Char) Json :=
  match scanSpanNonGreedy s with
  | none => .error writerFailMsg
  | some span =>
    match findContent span with
    | some (matched, captured) => contentBranch span matched captured
    | none =>
      match parseJson (writerClean span) with
      | .ok v => .ok v
      | .error _ => .error writerFailMsg

def parseJSONSafelyWriter (s : List Char) : Except (List Char) Json :=
  match parseJson s with
  | .ok v => .ok v
  | .error _ =>
    match fenceStage s with
    | some v => .ok v
    | none => spanStage s

/-- The curator agent's parseJSONSafely (curatorAgent.ts lines 45-61):
direct parse, then the greedy `{...}`/`[...]` span parsed verbatim; both
error messages embed the raw input text. -/
def parseJSONSafelyCurator (s : List Char) : Except (List Char) Json :=
  match parseJson s with
  | .ok v => .ok v
  | .error _ =>
    match scanSpanGreedy s with
    | some span =>
      match parseJson span with
      | .ok v => .ok v
      | .error _ => .error (curatorFailParseMsg ++ s)
    | none => .error (curatorNoJsonMsg ++ s)

/-! ### Word count and reading time (writerAgent.ts, editorAgent) -/

/-- JavaScript `content.split(/\s+/)` piece scanner.  `cur` collects the
current piece; `inWs` records being inside a separator run.  Splitting
keeps an empty piece at the start and at the end when the string begins or
ends with whitespace, and `"".split(/\s+/)` is `[""]`. -/
def splitWsGo : List Char → List Char → Bool → List (List Char)
  | [], cur, _ => [cur.reverse]
  | c :: cs, cur, inWs =>
    if isWsChar c then
      if inWs then splitWsGo cs [] true
      else cur.reverse :: splitWsGo cs [] true
    else splitWsGo cs (c :: cur) false

def splitWs (l : List Char) : List (List Char) := splitWsGo l [] false

/-- `content.split(/\s+/).length` as computed by the writer and editor. -/
def wordCountJs (l : List Char) : Nat := (splitWs l).length

/-- `calculateReadingTime`: `Math.ceil(wordCount / 200)`; for natural
numbers the ceiling is `(n + 199) / 200`. -/
def calculateReadingTime (l : List Char) : Nat :=
  (wordCountJs l + 199) / 200

/-- The number of whitespace-delimited tokens (maximal nonempty runs of
non-whitespace characters); the spec's reading of "word count". -/
def tokenCountGo : List Char → Bool → Nat
  | [], _ => 0
  | c :: cs, inTok =>
    if isWsChar c then tokenCountGo cs false
    else (if inTok then 0 else 1) + tokenCountGo cs true

def tokenCount (l : List Char) : Nat := tokenCountGo l false

def endsInWs : List Char → Bool
  | [] => false
  | [c] => isWsChar c
  | _ :: c :: cs => endsInWs (c :: cs)

/-! ### Curation filtering and sorting (curatorAgent.ts lines 108-115) -/

structure SearchResult where
  title : String
  snippet : String
  link : String

/-- One entry of the scoring response (the fields the curator reads). -/
structure ScoredEntry where
  relevanceScore : Int
  reason : String

structure SelectedResult where
  title : String
  snippet : String
  link : String
  relevanceScore : Int
  reason : String

/-- The `.map((result, index) => ({...result, relevanceScore:
scoredResults[index]?.relevanceScore ?? 0, reason: scoredResults[index]?.reason
?? "No reason provided"}))` step, indexing the scored list positionally. -/
def joinScores : List SearchResult → List ScoredEntry → List SelectedResult
  | [], _ => []
  | r :: rs, sc =>
    { title := r.title, snippet := r.snippet, link := r.link,
      relevanceScore := ((sc.head?).map ScoredEntry.relevanceScore).getD 0,
      reason := ((sc.head?).map ScoredEntry.reason).getD "No reason provided" }
      :: joinScores rs (sc.drop 1)

/-- Stable insertion for descending order: an element is placed before the
first strictly smaller score, after every earlier element with an equal or
larger score. -/
def insertDesc (x : SelectedResult) : List SelectedResult → List SelectedResult
  | [] => [x]
  | y :: ys =>
    if y.relevanceScore ≤ x.relevanceScore then x :: y :: ys
    else y :: insertDesc x ys

/-- Stable descending sort by relevanceScore.  ECMAScript requires
`Array.prototype.sort` to be stable, and with the comparator
`(a, b) => b.relevanceScore - a.relevanceScore` its output is the unique
permutation that is weakly descending with ties in original order, which
is what this insertion sort produces (proved below). -/
def sortDesc : List SelectedResult → List SelectedResult
  | [] => []
  | x :: xs => insertDesc x (sortDesc xs)

/-- `.filter((result) => result.relevanceScore >= 7).sort((a, b) =>
b.relevanceScore - a.relevanceScore)` applied to the joined list. -/
def selectedResultsOf (rs : List SearchResult) (sc : List ScoredEntry) :
    List SelectedResult :=
  sortDesc ((joinScores rs sc).filter (fun r => 7 ≤ r.relevanceScore))

/-! ### Stage execution and pipeline orchestration -/

structure PStage (Rec : Type) where
  name : String
  work : Rec → Except String Rec

inductive SpanPayload (Rec : Type) where
  | outputs (r : Rec)
  | failed (e : String)

structure SpanEvent (Rec : Type) where
  name : String
  payload : SpanPayload Rec

/-- One stage execution with its telemetry span, modelling the common
agent pattern (e.g. curatorAgent.ts lines 63-167): the work and the
success-path `runTree.end({outputs}); await runTree.postRun()` run inside
the try block; the catch block runs `runTree.end({error}); await
runTree.postRun(); throw error`, so a rejection of the success-path post
is caught, re-posted as an error span, and rethrown (and a rejection of
the catch-path post replaces the propagated error).  The returned list
records the span payloads posted to the telemetry collaborator. -/
def executeStage {Rec : Type} (tele : SpanEvent Rec → Except String Unit)
    (st : PStage Rec) (r : Rec) : Except String Rec × List (SpanEvent Rec) :=
  match st.work r with
  | .ok out =>
    let ev : SpanEvent Rec := ⟨st.name, .outputs out⟩
    match tele ev with
    | .ok _ => (.ok out, [ev])
    | .error te =>
      let ev2 : SpanEvent Rec := ⟨st.name, .failed te⟩
      match tele ev2 with
      | .ok _ => (.error te, [ev, ev2])
      | .error te2 => (.error te2, [ev, ev2])
  | .error e =>
    let ev : SpanEvent Rec := ⟨st.name, .failed e⟩
    match tele ev with
    | .ok _ => (.error e, [ev])
    | .error te2 => (.error te2, [ev])

/-- Modelled from the spec: the sequential pipeline orchestrator
(src/network/graph.ts, not present under src/) runs the stages strictly in
order, feeds each output forward, and short-circuits on the first failure
with no further stage invoked.  The third component lists the names of the
stages whose execute was invoked. -/
def runPipeline {Rec : Type} (tele : SpanEvent Rec → Except String Unit) :
    List (PStage Rec) → Rec → Except String Rec × List (SpanEvent Rec) × List String
  | [], r => (.ok r, [], [])
  | st :: rest, r =>
    match executeStage tele st r with
    | (.ok out, evs) =>
      match runPipeline tele rest out with
      | (res, evs2, inv2) => (res, evs ++ evs2, st.name :: inv2)
    | (.error e, evs) => (.error e, evs, [st.name])

/-! ### Stage record assembly (topic propagation) -/

structure ResearchOutput where
  topic : String
  searchResults : List SearchResult
  summary : String

/-- researcherAgent.ts: `{ topic: input.topic, searchResults, summary }`. -/
def researcherAssemble (inputTopic : String) (searchResults : List SearchResult)
    (summary : String) : ResearchOutput :=
  { topic := inputTopic, searchResults := searchResults, summary := summary }

structure CurationInput where
  topic : String
  searchResults : List SearchResult
  summary : String

structure CurationOutput where
  topic : String
  selectedResults : List SelectedResult
  curatedSummary : String
  suggestedAngles : List String

/-- curatorAgent.ts lines 151-156: the output record. -/
def curatorAssemble (input : CurationInput) (selectedResults : List SelectedResult)
    (curatedSummary : String) (suggestedAngles : List String) : CurationOutput :=
  { topic := input.topic, selectedResults := selectedResults,
    curatedSummary := curatedSummary, suggestedAngles := suggestedAngles }

structure WriterMetadata where
  wordCount : Nat
  readingTime : Nat
  targetAudience : String
  keyTakeaways : List String
  sources : List String

structure WriterInput where
  topic : String
  selectedResults : List SelectedResult
  curatedSummary : String
  suggestedAngles : List String

structure WriterOutput where
  topic : String
  title : String
  content : List Char
  metadata : WriterMetadata

/-- writerAgent.ts lines 248-261: the output record (`wordCount || 0` and
`readingTime || 0` are identities here because both computations return at
least 1). -/
def writerAssemble (input : WriterInput) (title : String) (content : List Char)
    (targetAudience : String) (keyTakeaways : List String) : WriterOutput :=
  { topic := input.topic, title := title, content := content,
    metadata :=
      { wordCount := wordCountJs content,
        readingTime := calculateReadingTime content,
        targetAudience := targetAudience,
        keyTakeaways := keyTakeaways,
        sources := input.selectedResults.map SelectedResult.link } }

structure CritiqueInput where
  topic : String
  title : String
  content : List Char
  metadata : WriterMetadata

/-- The critiquer's assembled output keeps the parsed critique fields as
JSON values (critiquerAgent, curatorAgent.ts lines 393-399). -/
structure CritiqueAssembled where
  topic : String
  overallScore : Json
  feedback : Json
  contentIssues : Json
  seoAnalysis : Json

structure EditorOutput where
  topic : String
  title : String
  content : List Char
  wordCount : Nat
  readingTime : Nat
  keyTakeaways : List String
  metaDescription : String
  keywords : List String

/-- editorAgent (src/unnamed/part_002 lines 224-239): the output record. -/
def editorAssemble (inputTopic : String) (title : String) (content : List Char)
    (keyTakeaways : List String) (metaDescription : String)
    (keywords : List String) : EditorOutput :=
  { topic := inputTopic, title := title, content := content,
    wordCount := wordCountJs content, readingTime := calculateReadingTime content,
    keyTakeaways := keyTakeaways, metaDescription := metaDescription,
    keywords := keywords }

structure PublisherOutput where
  topic : String
  title : String
  filePath : String
  publishedDate : String
  url : String

/-- publisherAgent (writerAgent.ts file, lines 566-581): the output record. -/
def publisherAssemble (inputTopic : String) (title : String) (filePath : String)
    (publishedDate : String) (url : String) : PublisherOutput :=
  { topic := inputTopic, title := title, filePath := filePath,
    publishedDate := publishedDate, url := url }

/-! ### Critique-format validation (truthiness check) -/

def Json.getField (j : Json) (key : List Char) : Option Json :=
  match j with
  | .obj fields => (fields.find? (fun p => p.1 = key)).map Prod.snd
  | _ => none

/-- JavaScript truthiness of a property lookup: `undefined`, `null`, `0`,
`""` and `false` are falsy; every object and array is truthy. -/
def jsTruthy : Option Json → Bool
  | none => false
  | some .null => false
  | some (.bool b) => b
  | some (.num n) => n ≠ 0
  | some (.str s) => s ≠ []
  | some (.arr _) => true
  | some (.obj _) => true

def overallScoreKey : List Char :=
  ['o', 'v', 'e', 'r', 'a', 'l', 'l', 'S', 'c', 'o', 'r', 'e']

def feedbackKey : List Char := ['f', 'e', 'e', 'd', 'b', 'a', 'c', 'k']

def contentIssuesKey : List Char :=
  ['c', 'o', 'n', 't', 'e', 'n', 't', 'I', 's', 's', 'u', 'e', 's']

def seoAnalysisKey : List Char :=
  ['s', 'e', 'o', 'A', 'n', 'a', 'l', 'y', 's', 'i', 's']

/-- critiquerAgent (curatorAgent.ts lines 383-399): `if (!critique.overallScore
|| !critique.feedback || !critique.contentIssues || !critique.seoAnalysis)
throw new Error("Invalid critique format")`, else assemble the record with
the input topic. -/
def critiquerProcess (inputTopic : String) (critique : Json) :
    Except String CritiqueAssembled :=
  if !(jsTruthy (critique.getField overallScoreKey))
      || !(jsTruthy (critique.getField feedbackKey))
      || !(jsTruthy (critique.getField contentIssuesKey))
      || !(jsTruthy (critique.getField seoAnalysisKey)) then
    .error "Invalid critique format"
  else
    .ok { topic := inputTopic,
          overallScore := (critique.getField overallScoreKey).getD .null,
          feedback := (critique.getField feedbackKey).getD .null,
          contentIssues := (critique.getField contentIssuesKey).getD .null,
          seoAnalysis := (critique.getField seoAnalysisKey).getD .null }

/-! ### The spec's reading of the bracket scan: balanced on brace type -/

/-- Take characters up to the close bracket balancing depth 0, counting
only the given open/close pair. -/
def balancedTake (opn cls : Char) : List Char → Nat → Option (List Char)
  | [], _ => none
  | c :: cs, depth =>
    if c = cls then
      if depth = 0 then some [c]
      else (balancedTake opn cls cs (depth - 1)).map (c :: ·)
    else if c = opn then (balancedTake opn cls cs (depth + 1)).map (c :: ·)
    else (balancedTake opn cls cs depth).map (c :: ·)

/-- Definition following the SPEC's words (not the source): "locate the
first top-level `{...}` or `[...]` span in the text (balanced on brace
type)".  Used only to compare the claimed behaviour with the code's
non-greedy scan. -/
def specBalancedScan : List Char → Option (List Char)
  | [] => none
  | c :: cs =>
    if c = '\x7b' then
      match balancedTake '\x7b' '\x7d' cs 0 with
      | some body => some ('\x7b' :: body)
      | none => specBalancedScan cs
    else if c = '[' then
      match balancedTake '[' ']' cs 0 with
      | some body => some ('[' :: body)
      | none => specBalancedScan cs
    else specBalancedScan cs

/-! ### Helper lemmas -/

theorem writer_error_eq (s m : List Char) (h : parseJSONSafelyWriter s = .error m) :
    m = writerFailMsg := by
  unfold parseJSONSafelyWriter at h
  split at h
  · simp at h
  · split at h
    · simp at h
    · unfold spanStage at h
      split at h
      · simp at h; exact h.symm
      · split at h
        · unfold contentBranch at h
          split at h
          · simp at h
          · simp at h; exact h.symm
        · split at h
          · simp at h
          · simp at h; exact h.symm

theorem curator_error_suffix (s m : List Char)
    (h : parseJSONSafelyCurator s = .error m) : s <:+ m := by
  unfold parseJSONSafelyCurator at h
  split at h
  · simp at h
  · split at h
    · split at h
      · simp at h
      · simp at h; rw [← h]; exact List.suffix_append _ _
    · simp at h; rw [← h]; exact List.suffix_append _ _

/-! ### C8 -/

/-- C8: for every input string that is valid JSON verbatim, both extraction
cascades succeed via the direct-parse strategy alone and return exactly
`parse(raw)`, with no normalization applied. -/
theorem direct_parse_strategy_first (s : List Char) (v : Json)
    (h : parseJson s = .ok v) :
    parseJSONSafelyWriter s = .ok v ∧ parseJSONSafelyCurator s = .ok v := by
  constructor
  · unfold parseJSONSafelyWriter; rw [h]
  · unfold parseJSONSafelyCurator; rw [h]

/-- Witness for C8 at the concrete valid JSON input `{"a":1}`. -/
theorem direct_parse_strategy_first_witness :
    parseJSONSafelyWriter ("\x7b\"a\":1\x7d").data = .ok (Json.obj [(['a'], Json.num 1)]) ∧
    parseJSONSafelyCurator ("\x7b\"a\":1\x7d").data = .ok (Json.obj [(['a'], Json.num 1)]) :=
  direct_parse_strategy_first _ _ (by rfl)

/-! ### C3 -/

/-- C3 (amended): when every strategy fails, extraction always throws
rather than returning a default value; the writer's error is the fixed
descriptive message (carrying neither the raw text nor a list of attempted
strategies - the raw text goes only to console.error), while the curator's
error message embeds the raw text as a suffix. -/
theorem extraction_failure_always_throws (s m m' : List Char)
    (hw : parseJSONSafelyWriter s = .error m)
    (hc : parseJSONSafelyCurator s = .error m') :
    m = writerFailMsg ∧ s <:+ m' :=
  ⟨writer_error_eq s m hw, curator_error_suffix s m' hc⟩

/-- Witness for C3 (amended) at the unrecoverable input `hello`. -/
theorem extraction_failure_always_throws_witness :
    ("hello").data = writerFailMsg ∨
      (("hello").data <:+ (curatorNoJsonMsg ++ ("hello").data) ∧
        parseJSONSafelyWriter ("hello").data = .error writerFailMsg) := by
  refine .inr ⟨(extraction_failure_always_throws ("hello").data writerFailMsg
    (curatorNoJsonMsg ++ ("hello").data) (by rfl) (by rfl)).2, by rfl⟩

/-- Counterexample to C3 as stated: on the unrecoverable inputs `hello` and
`world` the writer throws the same fixed message, which does not contain
the raw text, so the error does not carry the original raw text (nor any
per-input information such as the strategies attempted). -/
theorem writer_error_omits_raw_text :
    parseJSONSafelyWriter ("hello").data = .error writerFailMsg ∧
    parseJSONSafelyWriter ("world").data = .error writerFailMsg ∧
    ¬ ("hello").data <:+: writerFailMsg := by
  refine ⟨by rfl, by rfl, by decide⟩

/-! ### C10 -/

/-- C10: a critique response that parses to an object whose `overallScore`
field is present and equal to the number 0 (inside the declared 0-10
range) is rejected by the critiquer with the invalid-format error, because
`!critique.overallScore` tests truthiness and `0` is falsy. -/
theorem critiquer_rejects_zero_score (t : String) (j : Json)
    (h : j.getField overallScoreKey = some (.num 0)) :
    critiquerProcess t j = .error "Invalid critique format" := by
  unfold critiquerProcess
  rw [h]
  simp [jsTruthy]

/-- Witness for C10: a critique object with every required field present
(feedback, contentIssues and seoAnalysis as truthy objects/arrays) and
`overallScore = 0` is rejected. -/
theorem critiquer_rejects_zero_score_witness :
    critiquerProcess "topic"
      (Json.obj [(overallScoreKey, Json.num 0), (feedbackKey, Json.obj []),
                 (contentIssuesKey, Json.arr []), (seoAnalysisKey, Json.obj [])])
      = .error "Invalid critique format" :=
  critiquer_rejects_zero_score "topic" _ (by rfl)

/-! ### C6 -/

theorem insertDesc_perm (x : SelectedResult) (l : List SelectedResult) :
    List.Perm (insertDesc x l) (x :: l) := by
  induction l with
  | nil => exact List.Perm.refl _
  | cons y ys ih =>
    unfold insertDesc
    split
    · exact List.Perm.refl _
    · exact (ih.cons y).trans (List.Perm.swap x y ys)

theorem sortDesc_perm (l : List SelectedResult) : List.Perm (sortDesc l) l := by
  induction l with
  | nil => exact List.Perm.refl _
  | cons x xs ih => exact (insertDesc_perm x (sortDesc xs)).trans (ih.cons x)

theorem insertDesc_filter (x : SelectedResult) (l : List SelectedResult) (s : Int) :
    (insertDesc x l).filter (fun r => r.relevanceScore == s) =
      if x.relevanceScore = s then
        x :: l.filter (fun r => r.relevanceScore == s)
      else l.filter (fun r => r.relevanceScore == s) := by
  induction l with
  | nil =>
    by_cases hx : x.relevanceScore = s <;>
      simp [insertDesc, List.filter_cons, hx]
  | cons y ys ih =>
    unfold insertDesc
    split
    · by_cases hx : x.relevanceScore = s <;>
        simp [List.filter_cons, hx]
    · rename_i hgt
      push_neg at hgt
      by_cases hx : x.relevanceScore = s
      · have hy : ¬ y.relevanceScore = s := by
          intro hy; rw [hy, ← hx] at hgt; exact absurd hgt (lt_irrefl _)
        simp [List.filter_cons, hx, hy, ih]
      · by_cases hy : y.relevanceScore = s <;>
          simp [List.filter_cons, hx, hy, ih]

theorem sortDesc_filter (l : List SelectedResult) (s : Int) :
    (sortDesc l).filter (fun r => r.relevanceScore == s) =
      l.filter (fun r => r.relevanceScore == s) := by
  induction l with
  | nil => rfl
  | cons x xs ih =>
    show (insertDesc x (sortDesc xs)).filter _ = _
    rw [insertDesc_filter]
    by_cases hx : x.relevanceScore = s <;>
      simp [List.filter_cons, hx, ih]

theorem pairwise_insertDesc (x : SelectedResult) (l : List SelectedResult)
    (h : l.Pairwise (fun a b => b.relevanceScore ≤ a.relevanceScore)) :
    (insertDesc x l).Pairwise (fun a b => b.relevanceScore ≤ a.relevanceScore) := by
  induction l with
  | nil => simp [insertDesc]
  | cons y ys ih =>
    rw [List.pairwise_cons] at h
    obtain ⟨hy, hys⟩ := h
    unfold insertDesc
    split
    · rename_i hle
      rw [List.pairwise_cons]
      refine ⟨?_, ?_⟩
      · intro z hz
        rcases List.mem_cons.mp hz with rfl | hz
        · exact hle
        · exact le_trans (hy z hz) hle
      · rw [List.pairwise_cons]; exact ⟨hy, hys⟩
    · rename_i hgt
      push_neg at hgt
      rw [List.pairwise_cons]
      refine ⟨?_, ih hys⟩
      intro z hz
      have hz' := (insertDesc_perm x ys).mem_iff.mp hz
      rcases List.mem_cons.mp hz' with rfl | hz'
      · exact le_of_lt hgt
      · exact hy z hz'

theorem pairwise_sortDesc (l : List SelectedResult) :
    (sortDesc l).Pairwise (fun a b => b.relevanceScore ≤ a.relevanceScore) := by
  induction l with
  | nil => simp [sortDesc]
  | cons x xs ih => exact pairwise_insertDesc x (sortDesc xs) ih

def c6Results : List SearchResult :=
  [⟨"r1", "s1", "l1"⟩, ⟨"r2", "s2", "l2"⟩, ⟨"r3", "s3", "l3"⟩, ⟨"r4", "s4", "l4"⟩]

def c6Scores : List ScoredEntry :=
  [⟨9, "a"⟩, ⟨6, "b"⟩, ⟨8, "c"⟩, ⟨7, "d"⟩]

/-- C6: the curation stage keeps exactly the results scoring at least 7
(the output is a permutation of the threshold filter of the score-joined
list), orders them weakly descending by relevanceScore, and breaks ties by
original retrieval order (for every score class, the output restricted to
that class equals the filtered input restricted to it - the stable-sort
characterization); in particular for scores [9, 6, 8, 7] the selection is
exactly the results scored 9, 8, 7 in that order. -/
theorem curation_filter_sort :
    (∀ rs sc, (selectedResultsOf rs sc).Pairwise
        (fun a b => b.relevanceScore ≤ a.relevanceScore)) ∧
    (∀ rs sc, List.Perm (selectedResultsOf rs sc)
        ((joinScores rs sc).filter (fun r => 7 ≤ r.relevanceScore))) ∧
    (∀ rs sc s, (selectedResultsOf rs sc).filter (fun r => r.relevanceScore == s) =
        (joinScores rs sc).filter
          (fun r => (r.relevanceScore == s) && decide (7 ≤ r.relevanceScore))) ∧
    ((selectedResultsOf c6Results c6Scores).map (fun r => (r.title, r.relevanceScore)) =
        [("r1", 9), ("r3", 8), ("r4", 7)]) := by
  refine ⟨?_, ?_, ?_, by rfl⟩
  · intro rs sc
    exact pairwise_sortDesc _
  · intro rs sc
    exact sortDesc_perm _
  · intro rs sc s
    unfold selectedResultsOf
    rw [sortDesc_filter, List.filter_filter]

/-! ### Pipeline lemmas -/

theorem executeStage_reliable {Rec : Type} (tele : SpanEvent Rec → Except String Unit)
    (hTele : ∀ ev, tele ev = .ok ()) (st : PStage Rec) (r : Rec) :
    executeStage tele st r =
      match st.work r with
      | .ok out => (.ok out, [⟨st.name, .outputs out⟩])
      | .error e => (.error e, [⟨st.name, .failed e⟩]) := by
  unfold executeStage
  cases hw : st.work r <;> simp [hw, hTele]

theorem executeStage_ok_inv {Rec : Type} (tele : SpanEvent Rec → Except String Unit)
    (st : PStage Rec) (r out : Rec) (evs : List (SpanEvent Rec))
    (h : executeStage tele st r = (.ok out, evs)) : st.work r = .ok out := by
  unfold executeStage at h
  split at h
  · rename_i out' hw
    cases ht : tele ⟨st.name, SpanPayload.outputs out'⟩ with
    | ok u => simp [ht] at h; rw [hw, h.1]
    | error te =>
      cases ht2 : tele ⟨st.name, SpanPayload.failed te⟩ <;> simp [ht, ht2] at h
  · rename_i e hw
    cases ht : tele ⟨st.name, SpanPayload.failed e⟩ <;> simp [ht] at h

/-! ### C4 -/

/-- C4: whenever one stage's work fails (after a prefix of successful
stages), the pipeline run propagates that stage's error, no later stage is
ever invoked (the span and invocation logs are those of the prefix plus
the failing stage only, independent of the remaining stages), and the
telemetry collaborator still receives a closed span for the failing stage
recording the error.  The hypothesis `hTele` says the telemetry
collaborator itself accepts every span. -/
theorem pipeline_fail_fast {Rec : Type} (tele : SpanEvent Rec → Except String Unit)
    (hTele : ∀ ev, tele ev = .ok ())
    (pre post : List (PStage Rec)) (st : PStage Rec) (r0 r1 : Rec) (e : String)
    (evsPre : List (SpanEvent Rec)) (invPre : List String)
    (hpre : runPipeline tele pre r0 = (.ok r1, evsPre, invPre))
    (hfail : st.work r1 = .error e) :
    runPipeline tele (pre ++ st :: post) r0 =
      (.error e, evsPre ++ [⟨st.name, .failed e⟩], invPre ++ [st.name]) := by
  induction pre generalizing r0 evsPre invPre with
  | nil =>
    have h0 : runPipeline tele ([] : List (PStage Rec)) r0 = (.ok r0, [], []) := rfl
    rw [h0] at hpre
    injection hpre with ha hb
    injection ha with ha
    injection hb with hb hc
    subst ha; subst hb; subst hc
    simp only [List.nil_append]
    have hstep : runPipeline tele (st :: post) r0 =
        match executeStage tele st r0 with
        | (.ok out, evs) =>
          match runPipeline tele post out with
          | (res, evs2, inv2) => (res, evs ++ evs2, st.name :: inv2)
        | (.error e, evs) => (.error e, evs, [st.name]) := rfl
    rw [hstep, executeStage_reliable tele hTele st r0, hfail]
  | cons p pre' ih =>
    have hsplit : runPipeline tele (p :: pre') r0 =
        match executeStage tele p r0 with
        | (.ok out, evs) =>
          match runPipeline tele pre' out with
          | (res, evs2, inv2) => (res, evs ++ evs2, p.name :: inv2)
        | (.error e, evs) => (.error e, evs, [p.name]) := rfl
    rw [hsplit, executeStage_reliable tele hTele p r0] at hpre
    cases hw : p.work r0 with
    | error e' =>
      rw [hw] at hpre
      simp at hpre
    | ok out =>
      rw [hw] at hpre
      dsimp only at hpre
      cases hrec : runPipeline tele pre' out with
      | mk res' rest =>
        cases rest with
        | mk evs' inv' =>
          rw [hrec] at hpre
          simp at hpre
          obtain ⟨h1, h2, h3⟩ := hpre
          have hres : runPipeline tele pre' out = (.ok r1, evs', inv') := by
            rw [hrec, h1]
          have hih := ih out evs' inv' hres
          have hgoal : runPipeline tele ((p :: pre') ++ st :: post) r0 =
              match executeStage tele p r0 with
              | (.ok o, evs) =>
                match runPipeline tele (pre' ++ st :: post) o with
                | (res, evs2, inv2) => (res, evs ++ evs2, p.name :: inv2)
              | (.error e, evs) => (.error e, evs, [p.name]) := rfl
          rw [hgoal, executeStage_reliable tele hTele p r0, hw]
          dsimp only
          rw [hih, ← h2, ← h3]
          simp

/-- Witness for C4: three concrete stages where the second fails; the run
returns the second stage's error, the invocation log stops at the second
stage, and the telemetry log closes with the failing span. -/
def stageA : PStage String := ⟨"research", fun r => .ok (r ++ "|A")⟩

def stageB : PStage String := ⟨"curate", fun _ => .error "boom"⟩

def stageC : PStage String := ⟨"write", fun r => .ok (r ++ "|C")⟩

def teleOk {Rec : Type} : SpanEvent Rec → Except String Unit := fun _ => .ok ()

theorem pipeline_fail_fast_witness :
    runPipeline teleOk [stageA, stageB, stageC] "t" =
      (.error "boom",
       [⟨"research", .outputs "t|A"⟩, ⟨"curate", .failed "boom"⟩],
       ["research", "curate"]) := by
  have h := pipeline_fail_fast teleOk (fun _ => rfl) [stageA] [stageC] stageB "t" "t|A"
    "boom" [⟨"research", SpanPayload.outputs "t|A"⟩] ["research"] (by rfl) (by rfl)
  simpa using h

/-! ### C5 -/

/-- C5 (amended): telemetry is not fire-and-forget.  The success-path
`await runTree.postRun()` sits inside the try block, so when a stage's own
work succeeds but posting the span fails, the rejection is caught by the
stage's catch handler, posted again as an error span, and propagated: the
stage returns an error instead of its output record. -/
theorem telemetry_failure_aborts_stage {Rec : Type}
    (tele : SpanEvent Rec → Except String Unit) (st : PStage Rec) (r out : Rec)
    (te : String) (hwork : st.work r = .ok out)
    (hpost : tele ⟨st.name, .outputs out⟩ = .error te) :
    (∃ e', (executeStage tele st r).1 = .error e') ∧
      (executeStage tele st r).2 =
        [⟨st.name, .outputs out⟩, ⟨st.name, .failed te⟩] := by
  unfold executeStage
  rw [hwork]
  simp only [hpost]
  cases h2 : tele ⟨st.name, .failed te⟩ <;> simp

/-- Witness for C5 (amended): a concrete stage whose work succeeds paired
with a telemetry collaborator that rejects every post; the stage aborts. -/
def stageOkDemo : PStage Nat := ⟨"writer", fun n => .ok (n + 1)⟩

def teleDown : SpanEvent Nat → Except String Unit := fun _ => .error "telemetry down"

theorem telemetry_failure_aborts_stage_witness :
    (∃ e', (executeStage teleDown stageOkDemo 5).1 = .error e') ∧
      (executeStage teleDown stageOkDemo 5).2 =
        [⟨"writer", .outputs 6⟩, ⟨"writer", .failed "telemetry down"⟩] :=
  telemetry_failure_aborts_stage teleDown stageOkDemo 5 6 "telemetry down"
    (by rfl) (by rfl)

/-- Counterexample to C5 as stated: this stage's own work succeeds
(`work 5 = .ok 6`), yet when posting the span fails the stage execution
returns the telemetry error instead of the output record, so a telemetry
failure does abort the stage. -/
theorem telemetry_failure_not_isolated :
    stageOkDemo.work 5 = .ok 6 ∧
      (executeStage teleDown stageOkDemo 5).1 = .error "telemetry down" :=
  ⟨rfl, rfl⟩

/-! ### C9 -/

theorem runPipeline_topic {Rec : Type} (tele : SpanEvent Rec → Except String Unit)
    (topicOf : Rec → String) (stages : List (PStage Rec))
    (hstages : ∀ st ∈ stages, ∀ r r', st.work r = .ok r' → topicOf r' = topicOf r)
    (r0 rf : Rec) (evs : List (SpanEvent Rec)) (inv : List String)
    (hrun : runPipeline tele stages r0 = (.ok rf, evs, inv)) :
    topicOf rf = topicOf r0 := by
  induction stages generalizing r0 evs inv with
  | nil =>
    have h0 : runPipeline tele ([] : List (PStage Rec)) r0 = (.ok r0, [], []) := rfl
    rw [h0] at hrun
    injection hrun with ha _
    injection ha with ha
    rw [← ha]
  | cons p rest ih =>
    have hsplit : runPipeline tele (p :: rest) r0 =
        match executeStage tele p r0 with
        | (.ok out, evs) =>
          match runPipeline tele rest out with
          | (res, evs2, inv2) => (res, evs ++ evs2, p.name :: inv2)
        | (.error e, evs) => (.error e, evs, [p.name]) := rfl
    rw [hsplit] at hrun
    cases hex : executeStage tele p r0 with
    | mk res0 evs0 =>
      cases res0 with
      | error e0 => rw [hex] at hrun; simp at hrun
      | ok out =>
        rw [hex] at hrun
        dsimp only at hrun
        cases hrec : runPipeline tele rest out with
        | mk res' rest' =>
          cases rest' with
          | mk evs' inv' =>
            rw [hrec] at hrun
            simp at hrun
            obtain ⟨h1, _, _⟩ := hrun
            have hres : runPipeline tele rest out = (.ok rf, evs', inv') := by
              rw [hrec, h1]
            have hstep := hstages p (List.mem_cons_self p rest) r0 out
              (executeStage_ok_inv tele p r0 out evs0 hex)
            have htail := ih (fun st hst => hstages st (List.mem_cons_of_mem p hst))
              out evs' inv' hres
            rw [htail, hstep]

/-- C9: every stage assembles its output record with the unchanged input
topic (one conjunct per agent, taken from each agent's output-object
literal), and consequently a pipeline run over topic-preserving stages
returns a final record whose topic equals the topic the run started with. -/
theorem topic_propagation :
    (∀ t srs sm, (researcherAssemble t srs sm).topic = t) ∧
    (∀ (i : CurationInput) sel cs sa, (curatorAssemble i sel cs sa).topic = i.topic) ∧
    (∀ (i : WriterInput) ti c ta kt, (writerAssemble i ti c ta kt).topic = i.topic) ∧
    (∀ t j rec, critiquerProcess t j = .ok rec → rec.topic = t) ∧
    (∀ t ti c kt md kw, (editorAssemble t ti c kt md kw).topic = t) ∧
    (∀ t ti fp pd u, (publisherAssemble t ti fp pd u).topic = t) ∧
    (∀ (Rec : Type) (tele : SpanEvent Rec → Except String Unit)
        (topicOf : Rec → String) (stages : List (PStage Rec)),
      (∀ st ∈ stages, ∀ r r', st.work r = .ok r' → topicOf r' = topicOf r) →
      ∀ r0 rf evs inv, runPipeline tele stages r0 = (.ok rf, evs, inv) →
        topicOf rf = topicOf r0) := by
  refine ⟨fun _ _ _ => rfl, fun _ _ _ _ => rfl, fun _ _ _ _ _ => rfl, ?_,
    fun _ _ _ _ _ _ => rfl, fun _ _ _ _ _ => rfl,
    fun Rec tele topicOf stages hst r0 rf evs inv hrun =>
      runPipeline_topic tele topicOf stages hst r0 rf evs inv hrun⟩
  intro t j rec h
  unfold critiquerProcess at h
  split at h
  · simp at h
  · simp at h
    rw [← h]

/-- Witness for C9: a concrete two-stage pipeline over topic-carrying
records; the final record keeps the starting topic. -/
def topicStage1 : PStage (String × Nat) := ⟨"s1", fun p => .ok (p.1, p.2 + 1)⟩

def topicStage2 : PStage (String × Nat) := ⟨"s2", fun p => .ok (p.1, p.2 * 2)⟩

theorem topic_propagation_witness :
    (runPipeline teleOk [topicStage1, topicStage2] ("quantum", 0)).1 =
        .ok ("quantum", 2) ∧
      (("quantum", 2) : String × Nat).1 = (("quantum", 0) : String × Nat).1 := by
  refine ⟨by rfl, ?_⟩
  refine topic_propagation.2.2.2.2.2.2 (String × Nat) teleOk Prod.fst
    [topicStage1, topicStage2] ?_ ("quantum", 0) ("quantum", 2)
    [⟨"s1", .outputs ("quantum", 1)⟩, ⟨"s2", .outputs ("quantum", 2)⟩]
    ["s1", "s2"] (by rfl)
  intro st hst r r' h
  rcases List.mem_cons.mp hst with rfl | hst
  · injection h with h; rw [← h]
  · rcases List.mem_cons.mp hst with rfl | hst
    · injection h with h; rw [← h]
    · simp at hst

/-! ### C7 -/

theorem split_token_master (l : List Char) :
    (∀ cur : List Char, (splitWsGo l cur false).length
        = tokenCountGo l true + 1 + (if endsInWs l then 1 else 0)) ∧
    (splitWsGo l [] true).length
        = tokenCountGo l false + (if l = [] ∨ endsInWs l = true then 1 else 0) := by
  induction l with
  | nil => constructor <;> simp [splitWsGo, tokenCountGo, endsInWs]
  | cons c l' ih =>
    obtain ⟨ihA, ihB⟩ := ih
    have hends : endsInWs (c :: l') = (if l' = [] then isWsChar c else endsInWs l') := by
      cases l' <;> simp [endsInWs]
    by_cases hc : isWsChar c
    · have htA : tokenCountGo (c :: l') true = tokenCountGo l' false := by
        simp [tokenCountGo, hc]
      have htB : tokenCountGo (c :: l') false = tokenCountGo l' false := by
        simp [tokenCountGo, hc]
      constructor
      · intro cur
        have hgo : splitWsGo (c :: l') cur false = cur.reverse :: splitWsGo l' [] true := by
          simp [splitWsGo, hc]
        rw [hgo, List.length_cons, ihB, htA, hends]
        rcases eq_or_ne l' [] with hl | hl
        · subst hl; simp [hc]
        · simp only [hl, if_neg hl]
          by_cases he : endsInWs l' <;> simp [he]
      · have hgo : splitWsGo (c :: l') [] true = splitWsGo l' [] true := by
          simp [splitWsGo, hc]
        rw [hgo, ihB, htB, hends]
        rcases eq_or_ne l' [] with hl | hl
        · subst hl; simp [hc]
        · simp only [hl, if_neg hl]
          by_cases he : endsInWs l' <;> simp [he, hl]
    · have htA : tokenCountGo (c :: l') true = tokenCountGo l' true := by
        simp [tokenCountGo, hc]
      have htB : tokenCountGo (c :: l') false = 1 + tokenCountGo l' true := by
        simp [tokenCountGo, hc]
      constructor
      · intro cur
        have hgo : splitWsGo (c :: l') cur false = splitWsGo l' (c :: cur) false := by
          simp [splitWsGo, hc]
        rw [hgo, ihA (c :: cur), htA, hends]
        rcases eq_or_ne l' [] with hl | hl
        · subst hl; simp [hc, endsInWs]
        · simp [hl]
      · have hgo : splitWsGo (c :: l') [] true = splitWsGo l' [c] false := by
          simp [splitWsGo, hc]
        rw [hgo, ihA [c], htB, hends]
        rcases eq_or_ne l' [] with hl | hl
        · subst hl; simp [hc, endsInWs]; omega
        · simp only [hl, if_neg hl]
          have : ¬ (c :: l' = []) := by simp
          by_cases he : endsInWs l' <;> simp [he, this] <;> omega

theorem wordCount_trimmed (c : Char) (l : List Char) (hc : isWsChar c = false)
    (hend : endsInWs (c :: l) = false) :
    wordCountJs (c :: l) = tokenCount (c :: l) := by
  unfold wordCountJs splitWs tokenCount
  rw [(split_token_master (c :: l)).1 []]
  have htB : tokenCountGo (c :: l) false = 1 + tokenCountGo l true := by
    simp [tokenCountGo, hc]
  have htA : tokenCountGo (c :: l) true = tokenCountGo l true := by
    simp [tokenCountGo, hc]
  rw [hend, htB, htA]
  simp [Nat.add_comm]

/-- C7 (amended): `wordCount` is the number of pieces of
`content.split(/\s+/)`, which equals the whitespace-delimited token count
exactly when the content is nonempty and neither starts nor ends with
whitespace (the split keeps an empty boundary piece otherwise, and the
empty string counts 1); `readingTime = ceil(wordCount / 200)`, so such
trimmed content with 400 tokens reads in 2 minutes, 200 tokens in 1, and
201 tokens in 2. -/
theorem reading_time_from_split_pieces :
    (∀ c l, isWsChar c = false → endsInWs (c :: l) = false →
      wordCountJs (c :: l) = tokenCount (c :: l) ∧
        calculateReadingTime (c :: l) = (tokenCount (c :: l) + 199) / 200) ∧
    (∀ c l, isWsChar c = false → endsInWs (c :: l) = false →
      tokenCount (c :: l) = 400 → calculateReadingTime (c :: l) = 2) ∧
    (∀ c l, isWsChar c = false → endsInWs (c :: l) = false →
      tokenCount (c :: l) = 200 → calculateReadingTime (c :: l) = 1) ∧
    (∀ c l, isWsChar c = false → endsInWs (c :: l) = false →
      tokenCount (c :: l) = 201 → calculateReadingTime (c :: l) = 2) := by
  have base : ∀ c l, isWsChar c = false → endsInWs (c :: l) = false →
      wordCountJs (c :: l) = tokenCount (c :: l) ∧
        calculateReadingTime (c :: l) = (tokenCount (c :: l) + 199) / 200 := by
    intro c l hc hend
    have hw := wordCount_trimmed c l hc hend
    exact ⟨hw, by unfold calculateReadingTime; rw [hw]⟩
  refine ⟨base, ?_, ?_, ?_⟩ <;> intro c l hc hend ht <;>
    rw [(base c l hc hend).2, ht]

def repWords : Nat → List Char
  | 0 => []
  | n + 1 => ' ' :: 'a' :: repWords n

/-- Witness for C7 (amended) on a concrete trimmed 201-token string. -/
theorem reading_time_from_split_pieces_witness :
    calculateReadingTime ('a' :: repWords 200) = 2 :=
  reading_time_from_split_pieces.2.2.2 'a' (repWords 200) (by decide) (by decide)
    (by decide)

/-- Counterexample to C7 as stated: for the content string `" a"` the
code computes wordCount 2 (the split keeps an empty leading piece) while
its whitespace-delimited token count is 1; and a 200-token content string
with one leading space gets wordCount 201 and hence readingTime 2, where
the claim requires a 200-word string to yield 1. -/
theorem word_count_not_token_count :
    wordCountJs [' ', 'a'] = 2 ∧ tokenCount [' ', 'a'] = 1 ∧
      wordCountJs (' ' :: 'a' :: repWords 199) = 201 ∧
      tokenCount (' ' :: 'a' :: repWords 199) = 200 ∧
      calculateReadingTime (' ' :: 'a' :: repWords 199) = 2 := by
  refine ⟨by decide, by decide, by decide, by decide, by decide⟩

/-! ### C2 -/

theorem takeUpToIncl_spec (ch : Char) (l r : List Char)
    (h : takeUpToIncl ch l = some r) :
    ∃ body, r = body ++ [ch] ∧ ch ∉ body ∧ r <+: l := by
  induction l generalizing r with
  | nil => simp [takeUpToIncl] at h
  | cons c cs ih =>
    unfold takeUpToIncl at h
    by_cases hc : c = ch
    · rw [if_pos hc] at h
      injection h with h
      refine ⟨[], by rw [← h, hc]; rfl, by simp, ?_⟩
      rw [← h]
      exact ⟨cs, rfl⟩
    · rw [if_neg hc] at h
      cases hrec : takeUpToIncl ch cs with
      | none => rw [hrec] at h; simp at h
      | some r' =>
        rw [hrec] at h
        simp at h
        obtain ⟨body, hb1, hb2, hb3⟩ := ih r' hrec
        refine ⟨c :: body, by rw [← h, hb1]; rfl, ?_, ?_⟩
        · intro hmem
          rcases List.mem_cons.mp hmem with hx | hx
          · exact hc hx.symm
          · exact hb2 hx
        · rw [← h]
          obtain ⟨t, ht⟩ := hb3
          exact ⟨t, by rw [← ht]; rfl⟩

/-- C2 (amended): the bracket-scan strategy locates the span from the
first `{` having a later `}` (or `[` having a later `]`) up to the
NEAREST such closing character - the regex is non-greedy and not
balance-aware, so the interior of the span contains no closing character
of its kind and a span containing a nested object is cut at the first
closing brace rather than captured in full; the cascade then parses that
(possibly truncated) span after normalization. -/
theorem bracket_scan_nongreedy_shape (s t : List Char)
    (h : scanSpanNonGreedy s = some t) :
    ((∃ body, t = '\x7b' :: body ++ ['\x7d'] ∧ '\x7d' ∉ body) ∨
      (∃ body, t = '[' :: body ++ [']'] ∧ ']' ∉ body)) ∧ t <:+: s := by
  induction s generalizing t with
  | nil => simp [scanSpanNonGreedy] at h
  | cons c cs ih =>
    unfold scanSpanNonGreedy at h
    by_cases h1 : c = '\x7b'
    · rw [if_pos h1] at h
      cases htk : takeUpToIncl '\x7d' cs with
      | some r' =>
        rw [htk] at h
        injection h with h
        obtain ⟨body, hb1, hb2, hb3⟩ := takeUpToIncl_spec _ _ _ htk
        constructor
        · exact .inl ⟨body, by rw [← h, hb1]; simp, hb2⟩
        · rw [← h, h1]
          obtain ⟨tl, htl⟩ := hb3
          exact ⟨[], tl, by rw [List.nil_append, ← htl]; rfl⟩
      | none =>
        rw [htk] at h
        obtain ⟨hshape, pre, post, hinf⟩ := ih t h
        exact ⟨hshape, c :: pre, post, by rw [← hinf]; rfl⟩
    · rw [if_neg h1] at h
      by_cases h2 : c = '['
      · rw [if_pos h2] at h
        cases htk : takeUpToIncl ']' cs with
        | some r' =>
          rw [htk] at h
          injection h with h
          obtain ⟨body, hb1, hb2, hb3⟩ := takeUpToIncl_spec _ _ _ htk
          constructor
          · exact .inr ⟨body, by rw [← h, hb1]; simp, hb2⟩
          · rw [← h, h2]
            obtain ⟨tl, htl⟩ := hb3
            exact ⟨[], tl, by rw [List.nil_append, ← htl]; rfl⟩
        | none =>
          rw [htk] at h
          obtain ⟨hshape, pre, post, hinf⟩ := ih t h
          exact ⟨hshape, c :: pre, post, by rw [← hinf]; rfl⟩
      · rw [if_neg h2] at h
        obtain ⟨hshape, pre, post, hinf⟩ := ih t h
        exact ⟨hshape, c :: pre, post, by rw [← hinf]; rfl⟩

def c2Input : List Char := ("Result: \x7b\"a\": \x7b\"b\": 1\x7d\x7d done").data

/-- Witness for C2 (amended) at a concrete input with a nested object. -/
theorem bracket_scan_nongreedy_shape_witness :
    ((∃ body, ("\x7b\"a\": \x7b\"b\": 1\x7d").data = '\x7b' :: body ++ ['\x7d'] ∧
        '\x7d' ∉ body) ∨
      (∃ body, ("\x7b\"a\": \x7b\"b\": 1\x7d").data = '[' :: body ++ [']'] ∧
        ']' ∉ body)) ∧
      ("\x7b\"a\": \x7b\"b\": 1\x7d").data <:+: c2Input :=
  bracket_scan_nongreedy_shape c2Input _ (by rfl)

/-- Counterexample to C2 as stated: on `Result: {"a": {"b": 1}} done` the
code's non-greedy scan cuts at the first closing brace (an unbalanced
span) and the whole extraction fails, while the spec's balanced scan
yields the full nested object, which parses. -/
theorem bracket_scan_cut_at_first_close :
    scanSpanNonGreedy c2Input = some ("\x7b\"a\": \x7b\"b\": 1\x7d").data ∧
      parseJSONSafelyWriter c2Input = .error writerFailMsg ∧
      specBalancedScan c2Input = some ("\x7b\"a\": \x7b\"b\": 1\x7d\x7d").data ∧
      parseJson ("\x7b\"a\": \x7b\"b\": 1\x7d\x7d").data =
        .ok (Json.obj [(['a'], Json.obj [(['b'], Json.num 1)])]) :=
  ⟨by rfl, by rfl, by rfl, by rfl⟩

/-! ### C1 -/

/-- A drafting response of the shape the content-preserving branch
repairs: a single-line object whose `content` value is `v` and whose only
punctuation defect is a trailing comma before the closing brace. -/
def draftPrefix : List Char :=
  ['\x7b', ' ', '"', 'c', 'o', 'n', 't', 'e', 'n', 't', '"', ':', ' ', '"']

def draftSuffix : List Char := ['"', ',', ' ', '\x7d']

def mkDraft (v : List Char) : List Char := draftPrefix ++ (v ++ draftSuffix)

def draftBodyPre : List Char :=
  [' ', '"', 'c', 'o', 'n', 't', 'e', 'n', 't', '"', ':', ' ', '"']

def draftBody (v : List Char) : List Char := draftBodyPre ++ (v ++ ['"', ',', ' '])

def contentTail (v : List Char) : List Char :=
  contentPat ++ (' ' :: '"' :: (v ++ ['"', ',', ' ', '\x7d']))

def contentMatched (v : List Char) : List Char :=
  contentPat ++ (' ' :: '"' :: (v ++ ['"']))

def cleanedPre : List Char :=
  '\x7b' :: ' ' :: (contentPlaceholder ++ [',', ' ', '\x7d'])

theorem parseStringBody_err (v rest : List Char)
    (hn : '\n' ∈ v) (hq : '"' ∉ v) (hb : '\\' ∉ v) :
    parseStringBody (v ++ rest) = .error () := by
  induction v with
  | nil => simp at hn
  | cons c v' ih =>
    have hq' : '"' ∉ v' := fun h => hq (List.mem_cons_of_mem _ h)
    have hb' : '\\' ∉ v' := fun h => hb (List.mem_cons_of_mem _ h)
    have hcq : ¬ c = '"' := fun h => hq (h ▸ List.mem_cons_self _ _)
    have hcb : ¬ c = '\\' := fun h => hb (h ▸ List.mem_cons_self _ _)
    rcases List.mem_cons.mp hn with hc | hn'
    · subst hc
      show parseStringBody ('\n' :: (v' ++ rest)) = .error ()
      unfold parseStringBody
      rw [if_neg hcq, if_neg hcb, if_pos (by decide : ('\n' : Char).toNat < 32)]
    · show parseStringBody (c :: (v' ++ rest)) = .error ()
      unfold parseStringBody
      rw [if_neg hcq, if_neg hcb]
      by_cases hctl : c.toNat < 32
      · rw [if_pos hctl]
      · rw [if_neg hctl, ih hn' hq' hb']
        rfl

theorem parseCore_mkDraft_err (v : List Char) (hn : '\n' ∈ v) (hq : '"' ∉ v)
    (hb : '\\' ∉ v) (f : Nat) :
    parseCore (f + 3) .value (mkDraft v) = .error () := by
  have hsb1 : parseStringBody (v ++ draftSuffix) = .error () :=
    parseStringBody_err v draftSuffix hn hq hb
  have hkey : parseStringBody ('c' :: 'o' :: 'n' :: 't' :: 'e' :: 'n' :: 't' :: '"' ::
      (':' :: ' ' :: '"' :: (v ++ draftSuffix))) =
        .ok (['c', 'o', 'n', 't', 'e', 'n', 't'],
          ':' :: ' ' :: '"' :: (v ++ draftSuffix)) := by
    simp [parseStringBody.eq_def, Except.map]
  have hval : parseCore (f + 1) .value (' ' :: '"' :: (v ++ draftSuffix)) = .error () := by
    have e2 : parseCore (f + 1) .value (' ' :: '"' :: (v ++ draftSuffix)) =
        (match parseStringBody (v ++ draftSuffix) with
         | .ok (s, r) => Except.ok (Json.str s, r)
         | .error _ => Except.error ()) := rfl
    rw [e2, hsb1]
  have e1 : parseCore (f + 3) .value (mkDraft v) =
      (match parseStringBody ('c' :: 'o' :: 'n' :: 't' :: 'e' :: 'n' :: 't' :: '"' ::
          (':' :: ' ' :: '"' :: (v ++ draftSuffix))) with
       | .error _ => .error ()
       | .ok (k, r1) =>
         match skipWs r1 with
         | ':' :: r2 =>
           match parseCore (f + 1) .value r2 with
           | .error _ => .error ()
           | .ok (val, r3) =>
             match skipWs r3 with
             | ',' :: r4 => parseCore (f + 1) (.members false ([] ++ [(k, val)])) r4
             | '\x7d' :: r4 => .ok (.obj ([] ++ [(k, val)]), r4)
             | _ => .error ()
         | _ => .error ()) := rfl
  rw [e1, hkey]
  simp [skipWs, List.dropWhile_cons, isWsChar, hval]

theorem parseJson_mkDraft_err (v : List Char) (hn : '\n' ∈ v) (hq : '"' ∉ v)
    (hb : '\\' ∉ v) : parseJson (mkDraft v) = .error () := by
  unfold parseJson
  obtain ⟨f, hf⟩ : ∃ f, (mkDraft v).length + 2 = f + 3 :=
    ⟨v.length + 17, by simp [mkDraft, draftPrefix, draftSuffix]⟩
  rw [hf, parseCore_mkDraft_err v hn hq hb f]

theorem findFence_none (s : List Char) (h : btick ∉ s) : findFence s = none := by
  induction s with
  | nil => rfl
  | cons c cs ih =>
    have hcb : ¬ c = btick := fun hcc => h (hcc ▸ List.mem_cons_self _ _)
    have h' : btick ∉ cs := fun hm => h (List.mem_cons_of_mem _ hm)
    have hfa : fenceAt (c :: cs) = none := by
      unfold fenceAt
      rw [if_neg ?_]
      intro hp
      simp [List.isPrefixOf] at hp
      exact hcb hp.1.symm
    unfold findFence
    rw [hfa, ih h']

theorem isPrefixOf_append_self (a b : List Char) : a.isPrefixOf (a ++ b) = true := by
  induction a with
  | nil => simp [List.isPrefixOf]
  | cons x xs ih => simp [List.isPrefixOf, ih]

theorem takeUpToIncl_append (ch : Char) (body : List Char) (h : ch ∉ body) :
    takeUpToIncl ch (body ++ [ch]) = some (body ++ [ch]) := by
  induction body with
  | nil =>
    show takeUpToIncl ch (ch :: []) = some (ch :: [])
    unfold takeUpToIncl
    rw [if_pos rfl]
  | cons c b' ih =>
    have hc : ¬ c = ch := fun hcc => h (hcc ▸ List.mem_cons_self _ _)
    have h' : ch ∉ b' := fun hm => h (List.mem_cons_of_mem _ hm)
    show takeUpToIncl ch (c :: (b' ++ [ch])) = some (c :: (b' ++ [ch]))
    unfold takeUpToIncl
    rw [if_neg hc, ih h']
    rfl

theorem captureUpToQuote_append (v rest : List Char) (hq : '"' ∉ v) :
    captureUpToQuote (v ++ '"' :: rest) = some (v, rest) := by
  induction v with
  | nil =>
    show captureUpToQuote ('"' :: rest) = some ([], rest)
    unfold captureUpToQuote
    rw [if_pos rfl]
  | cons c v' ih =>
    have hcq : ¬ c = '"' := fun hcc => hq (hcc ▸ List.mem_cons_self _ _)
    have hq' : '"' ∉ v' := fun hm => hq (List.mem_cons_of_mem _ hm)
    show captureUpToQuote (c :: (v' ++ '"' :: rest)) = some (c :: v', rest)
    unfold captureUpToQuote
    rw [if_neg hcq, ih hq']
    rfl

theorem findPrefixSplit_cons_neg (pat : List Char) (c : Char) (cs : List Char)
    (h : pat.isPrefixOf (c :: cs) = false) :
    findPrefixSplit pat (c :: cs) =
      match findPrefixSplit pat cs with
      | some (pre, post) => some (c :: pre, post)
      | none => none := by
  conv_lhs => unfold findPrefixSplit
  rw [if_neg (by rw [h]; simp)]

theorem findPrefixSplit_self (pat rest : List Char) (hne : pat ≠ []) :
    findPrefixSplit pat (pat ++ rest) = some ([], rest) := by
  cases pat with
  | nil => exact absurd rfl hne
  | cons p ps =>
    have hpre := isPrefixOf_append_self (p :: ps) rest
    rw [List.cons_append] at hpre
    show findPrefixSplit (p :: ps) (p :: (ps ++ rest)) = some ([], rest)
    unfold findPrefixSplit
    rw [if_pos hpre]
    have hd : (p :: (ps ++ rest)).drop (p :: ps).length = rest := by
      rw [← List.cons_append]
      exact List.drop_left _ _
    rw [hd]

theorem scanSpan_brace (l : List Char) :
    scanSpanNonGreedy ('\x7b' :: l) =
      match takeUpToIncl '\x7d' l with
      | some body => some ('\x7b' :: body)
      | none => scanSpanNonGreedy l := by
  conv_lhs => unfold scanSpanNonGreedy
  rw [if_pos rfl]

theorem findContent_cons (c : Char) (cs : List Char) :
    findContent (c :: cs) =
      match contentAt (c :: cs) with
      | some m => some m
      | none => findContent cs := by
  conv_lhs => unfold findContent

theorem contentAt_contentTail (v : List Char) (hq : '"' ∉ v) :
    contentAt (contentTail v) = some (contentMatched v, v) := by
  show contentAt (contentPat ++ (' ' :: '"' :: (v ++ ['"', ',', ' ', '\x7d']))) = _
  unfold contentAt
  rw [if_pos (isPrefixOf_append_self contentPat _)]
  rw [List.drop_left' (by rfl : contentPat.length = (10 : Nat))]
  dsimp only
  rw [show (' ' :: '"' :: (v ++ ['"', ',', ' ', '\x7d'])).takeWhile isWsChar = [' ']
    from by simp [List.takeWhile_cons, isWsChar]]
  rw [show ((' ' : Char) :: '"' :: (v ++ ['"', ',', ' ', '\x7d'])).drop [' '].length
      = '"' :: (v ++ ['"', ',', ' ', '\x7d']) from rfl]
  show (match captureUpToQuote (v ++ ['"', ',', ' ', '\x7d']) with
        | some (cap, _) => some (contentPat ++ [' '] ++ '"' :: (cap ++ ['"']), cap)
        | none => none) = some (contentMatched v, v)
  rw [captureUpToQuote_append v [',', ' ', '\x7d'] hq]
  simp [contentMatched]

theorem findContent_of_some (l : List Char) (m : List Char × List Char)
    (h : contentAt l = some m) : findContent l = some m := by
  cases l with
  | nil =>
    rw [show contentAt ([] : List Char) = none from by
      unfold contentAt
      rw [if_neg (by simp [contentPat, List.isPrefixOf])]] at h
    cases h
  | cons c cs => rw [findContent_cons, h]

/-- C1 (amended): for every drafting response of the single-line shape
`{ "content": "<v>", }` - surrounding punctuation malformed by a trailing
comma - whose content value `v` contains embedded literal newlines but no
double quote (and no closing brace, backslash or backtick), the writer's
extraction succeeds through the content-preserving branch and returns the
object with that exact content string unmodified.  With an internal double
quote in the content this fails (see the counterexample): the capture
regex `([^"]*?)"` stops at the first quote. -/
theorem writer_extractor_preserves_content (v : List Char)
    (hn : '\n' ∈ v) (hq : '"' ∉ v) (hb : '\\' ∉ v) (hbr : '\x7d' ∉ v)
    (hbt : btick ∉ v) :
    parseJSONSafelyWriter (mkDraft v) = .ok (Json.obj [(contentKey, Json.str v)]) := by
  have hbtm : btick ∉ mkDraft v := by
    intro hm
    unfold mkDraft at hm
    rcases List.mem_append.mp hm with h1 | h1
    · exact absurd h1 (by decide)
    · rcases List.mem_append.mp h1 with h2 | h2
      · exact hbt h2
      · exact absurd h2 (by decide)
  have hbody : '\x7d' ∉ draftBody v := by
    intro hm
    unfold draftBody at hm
    rcases List.mem_append.mp hm with h1 | h1
    · exact absurd h1 (by decide)
    · rcases List.mem_append.mp h1 with h2 | h2
      · exact hbr h2
      · exact absurd h2 (by decide)
  have hdirect := parseJson_mkDraft_err v hn hq hb
  have hfence : fenceStage (mkDraft v) = none := by
    unfold fenceStage
    rw [findFence_none _ hbtm]
  have hsplitBrace : mkDraft v = '\x7b' :: (draftBody v ++ ['\x7d']) := by
    simp [mkDraft, draftPrefix, draftSuffix, draftBody, draftBodyPre]
  have hscan : scanSpanNonGreedy (mkDraft v) = some (mkDraft v) := by
    conv_lhs => rw [hsplitBrace]
    rw [scanSpan_brace, takeUpToIncl_append '\x7d' (draftBody v) hbody]
    dsimp only
    rw [← hsplitBrace]
  have hform : mkDraft v = '\x7b' :: ' ' :: contentTail v := by
    simp [mkDraft, draftPrefix, draftSuffix, contentTail, contentPat]
  have hnone1 : contentAt ('\x7b' :: ' ' :: contentTail v) = none := by
    unfold contentAt
    rw [if_neg (by simp [contentPat, List.isPrefixOf])]
  have hnone2 : contentAt (' ' :: contentTail v) = none := by
    unfold contentAt
    rw [if_neg (by simp [contentPat, List.isPrefixOf])]
  have hfc : findContent (mkDraft v) = some (contentMatched v, v) := by
    rw [hform, findContent_cons, hnone1]
    dsimp only
    rw [findContent_cons, hnone2]
    dsimp only
    exact findContent_of_some _ _ (contentAt_contentTail v hq)
  have hrepl : replaceFirst (contentMatched v) contentPlaceholder (mkDraft v)
      = cleanedPre := by
    unfold replaceFirst
    have hne : contentMatched v ≠ [] := by simp [contentMatched, contentPat]
    have hmform : mkDraft v = '\x7b' :: ' ' :: (contentMatched v ++ [',', ' ', '\x7d']) := by
      simp [mkDraft, draftPrefix, draftSuffix, contentMatched, contentPat]
    rw [hmform]
    rw [findPrefixSplit_cons_neg _ _ _ (by simp [contentMatched, contentPat, List.isPrefixOf])]
    rw [findPrefixSplit_cons_neg _ _ _ (by simp [contentMatched, contentPat, List.isPrefixOf])]
    rw [findPrefixSplit_self _ _ hne]
    simp [cleanedPre]
  unfold parseJSONSafelyWriter
  rw [hdirect]
  dsimp only
  rw [hfence]
  dsimp only
  unfold spanStage
  rw [hscan]
  dsimp only
  rw [hfc]
  dsimp only
  unfold contentBranch
  rw [hrepl]
  rfl

def demoContent : List Char := ("Line one\nLine two").data

/-- Witness for C1 (amended) at a concrete two-line content value. -/
theorem writer_extractor_preserves_content_witness :
    parseJSONSafelyWriter (mkDraft demoContent)
      = .ok (Json.obj [(contentKey, Json.str demoContent)]) :=
  writer_extractor_preserves_content demoContent (by decide) (by decide) (by decide)
    (by decide) (by decide)

def c1Input : List Char :=
  ("\x7b \"content\": \"Line one\nLine \\\"two\\\" end\", \x7d").data

/-- Counterexample to C1 as stated: the response encodes an object whose
content value `Line one\nLine "two" end` contains embedded literal
newlines and an internal (escaped) double quote, with a trailing comma as
the only other punctuation defect; the writer's extraction does not
return that content - it fails outright, because the capture regex stops
at the quote inside the content (the capture is `Line one\nLine \`). -/
theorem writer_extractor_internal_quote_fails :
    parseJSONSafelyWriter c1Input = .error writerFailMsg ∧
      (findContent c1Input).map Prod.snd = some ("Line one\nLine \\").data :=
  ⟨by rfl, by rfl⟩
